import Mathlib

/-!
# Lotion — drag-and-drop reordering engine, shallow embedding

A shallow embedding of the ordered-list drag-and-drop reconciliation engine of
the Lotion kanban board (`src/src/components/MainApp.tsx`), together with the
order-key allocation used by task creation (`addTask`).  Tasks carry an integer
`order` key; the drag-end handler plans a new sequence for the target column,
applies it optimistically to local state, and issues a batched remote write.

JavaScript array primitives used by the source (`Array.prototype.splice`,
`findIndex`, `indexOf`, and `arrayMove` from `@dnd-kit/sortable`) are embedded
with their index conventions (negative result `-1` for "not found", index
clamping in `splice`) made explicit.
-/

namespace Lotion

/-- The three kanban columns, `Task["column"] = "Not Started" | "In Progress" | "Done"`
(`src/src/types.ts`). -/
inductive Column where
  | notStarted
  | inProgress
  | done
deriving DecidableEq, Repr

/-- A task record (`src/src/types.ts`).  `order` is the numeric ordering key;
the source stores a JS number, which the reorder engine only ever sets to
integer values, embedded here as `Int`. -/
structure Task where
  id : String
  title : String
  column : Column
  imageUrl : Option String := none
  order : Int
deriving DecidableEq, Repr

/-- A drop target at drag end: either a column drop area
(`over.data.current.type === "column"`) or another task card (`over.id`). -/
inductive OverTarget where
  | column (c : Column)
  | task (id : String)
deriving DecidableEq, Repr

/-- The `DragEndEvent` payload as used by `handleDragEnd`: the dragged task's id
and the (possibly absent) drop target. -/
structure DragEndEvent where
  activeId : String
  over : Option OverTarget
deriving DecidableEq, Repr

/-! ## JavaScript array primitives -/

/-- JS `Array.prototype.findIndex`: index of the first element satisfying `p`,
or `-1` when none does. -/
def jsFindIndex (p : α → Bool) : List α → Int
  | [] => -1
  | a :: as =>
    if p a then 0
    else
      let r := jsFindIndex p as
      if r < 0 then -1 else r + 1

/-- JS `Array.prototype.indexOf` on a list of strings. -/
def jsIndexOf (l : List String) (x : String) : Int :=
  jsFindIndex (fun y => y == x) l

/-- JS `splice` start-index clamping: negative indices count from the end,
and indices are clamped into `[0, len]`. -/
def clampIndex (len : Nat) (start : Int) : Nat :=
  (if start < 0 then max ((len : Int) + start) 0 else min start (len : Int)).toNat

/-- Insert `a` at (already clamped) position `n`, appending when `n` exceeds
the length — the behaviour of `splice(n, 0, a)` after clamping. -/
def spliceInsertAux (a : α) : Nat → List α → List α
  | _, [] => [a]
  | 0, l => a :: l
  | n + 1, x :: xs => x :: spliceInsertAux a n xs

/-- JS `l.splice(start, 0, a)`: insert `a` at JS index `start`. -/
def jsSpliceInsertOne (l : List α) (start : Int) (a : α) : List α :=
  spliceInsertAux a (clampIndex l.length start) l

/-- Remove the element at (already clamped) position `n`, returning it (if any)
and the remaining list — the behaviour of `splice(n, 1)` after clamping. -/
def spliceRemoveAux : Nat → List α → Option α × List α
  | _, [] => (none, [])
  | 0, x :: xs => (some x, xs)
  | n + 1, x :: xs =>
    let r := spliceRemoveAux n xs
    (r.1, x :: r.2)

/-- JS `l.splice(start, 1)`: remove one element at JS index `start`. -/
def jsSpliceRemoveOne (l : List α) (start : Int) : Option α × List α :=
  spliceRemoveAux (clampIndex l.length start) l

/-- The function `arrayMove` from `@dnd-kit/sortable` (vendor library):
`newArray.splice(to < 0 ? newArray.length + to : to, 0, newArray.splice(from, 1)[0])`.
The insertion index expression is evaluated against the pre-removal length.
When `from` is out of range JS would insert `undefined`; that case cannot be
represented, so the removal-free list is returned unchanged (the engine only
calls `arrayMove` with `from` a valid index of a nonempty list). -/
def arrayMove (l : List α) (i j : Int) : List α :=
  let insertPos : Int := if j < 0 then (l.length : Int) + j else j
  match jsSpliceRemoveOne l i with
  | (some a, rest) => jsSpliceInsertOne rest insertPos a
  | (none, rest) => rest

/-! ## Reorder planning (`handleDragEnd`, steps 1–3) -/

/-- Step 1 of `handleDragEnd`: determine the target column — the column marker
itself, or the column of the task under the drop point. -/
def resolveTargetColumn (tasks : List Task) : OverTarget → Option Column
  | .column c => some c
  | .task oid => (tasks.find? (fun t => t.id == oid)).map (·.column)

/-- Cross-column branch: `insertIndex` into the target column's current tasks —
the drop-target task's index when found, the end of the list otherwise. -/
def crossInsertIndex (targetIds : List String) (over : OverTarget) : Int :=
  match over with
  | .column _ => (targetIds.length : Int)
  | .task oid =>
    let overIndex := jsIndexOf targetIds oid
    if overIndex ≥ 0 then overIndex else (targetIds.length : Int)

/-- Same-column branch: the drop position — the last index for a column drop,
otherwise the drop-target task's index. -/
def sameColumnNewIndex (targetColumnTasks : List Task) (over : OverTarget) : Int :=
  match over with
  | .column _ => (targetColumnTasks.length : Int) - 1
  | .task oid => jsFindIndex (fun t => t.id == oid) targetColumnTasks

/-- Outcome of the planning phase of `handleDragEnd`: the dragged task, the
resolved target column, and the new task sequence for that column. -/
structure DragPlan where
  activeTask : Task
  targetColumn : Column
  newTasksInColumn : List Task
deriving DecidableEq, Repr

/-- Steps 1–3 of `handleDragEnd`: resolve the target column and compute
`newTasksInColumn`, or `none` on any of the early returns (no drop target,
unknown active task, unresolvable target column, same-position drop). -/
def planDragEnd (tasks : List Task) (ev : DragEndEvent) : Option DragPlan :=
  match ev.over with
  | none => none
  | some over =>
    match tasks.find? (fun t => t.id == ev.activeId) with
    | none => none
    | some activeTask =>
      match resolveTargetColumn tasks over with
      | none => none
      | some targetColumn =>
        let targetColumnTasks := tasks.filter (fun t => t.column == targetColumn)
        if activeTask.column ≠ targetColumn then
          let targetIds := targetColumnTasks.map (·.id)
          let insertIndex := crossInsertIndex targetIds over
          some ⟨activeTask, targetColumn,
            jsSpliceInsertOne targetColumnTasks insertIndex
              { activeTask with column := targetColumn }⟩
        else
          let oldIndex := jsFindIndex (fun t => t.id == ev.activeId) targetColumnTasks
          let newIndex := sameColumnNewIndex targetColumnTasks over
          if oldIndex = newIndex then none
          else some ⟨activeTask, targetColumn, arrayMove targetColumnTasks oldIndex newIndex⟩

/-! ## Order assignment, optimistic update, batch write (`handleDragEnd`, steps 4–5) -/

/-- Step 4: the renumbering `newTasksInColumn.map((t, index) => ({ ...t, order: index * 100 + 100,
column: targetColumn }))`, with the running index made explicit. -/
def assignOrders (targetColumn : Column) : Nat → List Task → List Task
  | _, [] => []
  | i, t :: ts =>
    { t with order := (i : Int) * 100 + 100, column := targetColumn }
      :: assignOrders targetColumn (i + 1) ts

/-- Step 4 continued: the `setTasks` updater — keep the tasks outside the target
column (minus the active task's old entry) and append the renumbered sequence. -/
def optimisticTasks (tasks : List Task) (activeId : String) (p : DragPlan) : List Task :=
  let newTasksWithOrder := assignOrders p.targetColumn 0 p.newTasksInColumn
  let otherTasks := tasks.filter (fun t => !(t.column == p.targetColumn) && !(t.id == activeId))
  otherTasks ++ newTasksWithOrder

/-- The contents of the Firestore `writeBatch`: at most one column update for
the active task, plus order updates keyed by task id. -/
structure WriteBatch where
  columnUpdate : Option (String × Column)
  orderUpdates : List (String × Int)
deriving DecidableEq, Repr

/-- Step 5: the per-task order updates — `batch.update(ref, { order: newOrder })`
for each task whose order changed, the active task always included. -/
def batchOrderUpdates (activeId : String) : Nat → List Task → List (String × Int)
  | _, [] => []
  | i, t :: ts =>
    let newOrder : Int := (i : Int) * 100 + 100
    if t.order != newOrder || t.id == activeId then
      (t.id, newOrder) :: batchOrderUpdates activeId (i + 1) ts
    else
      batchOrderUpdates activeId (i + 1) ts

/-- Step 5: the whole batch — the active task's column update when its column
changed, and the order updates over `newTasksInColumn`. -/
def mkWriteBatch (activeId : String) (p : DragPlan) : WriteBatch :=
  { columnUpdate :=
      if p.activeTask.column ≠ p.targetColumn then some (activeId, p.targetColumn) else none
    orderUpdates := batchOrderUpdates activeId 0 p.newTasksInColumn }

/-! ## The drag-end handler as an effect trace -/

/-- The externally visible actions of `handleDragEnd`, in program order:
`setActiveTask(null)`, the optimistic `setTasks`, `batch.commit()`, and the
failure notification `addNotification(message, "error")`. -/
inductive Effect where
  | clearActiveTask
  | applyOptimistic (newTasks : List Task)
  | issueBatch (b : WriteBatch)
  | notify (message : String)
deriving DecidableEq, Repr

/-- The handler `handleDragEnd` as the sequence of effects it performs, given the current
task list, the active project id, the event, and whether `batch.commit()`
succeeds.  Mirrors the source's control flow: clear the drag state first; stop
on any planning no-op; apply the optimistic update; stop if no project is
active; issue the batch; notify on failure. -/
def handleDragEnd (tasks : List Task) (activeProjectId : Option String)
    (ev : DragEndEvent) (commitOk : Bool) : List Effect :=
  Effect.clearActiveTask ::
    match planDragEnd tasks ev with
    | none => []
    | some p =>
      Effect.applyOptimistic (optimisticTasks tasks ev.activeId p) ::
        match activeProjectId with
        | none => []
        | some _ =>
          Effect.issueBatch (mkWriteBatch ev.activeId p) ::
            if commitOk then [] else [Effect.notify "Failed to save new order"]

/-- The component's local state touched by the drag-end path: the in-memory
task list, the drag session state, and the queued notification messages. -/
structure LocalState where
  tasks : List Task
  activeTask : Option Task
  notifications : List String
deriving DecidableEq, Repr

/-- Interpret one effect against local state (a batch is a remote action and
leaves local state untouched). -/
def applyEffect (s : LocalState) : Effect → LocalState
  | .clearActiveTask => { s with activeTask := none }
  | .applyOptimistic ts => { s with tasks := ts }
  | .issueBatch _ => s
  | .notify m => { s with notifications := s.notifications ++ [m] }

/-- Run a trace of effects over local state. -/
def runEffects (s : LocalState) (es : List Effect) : LocalState :=
  es.foldl applyEffect s

/-- The local state after a complete `handleDragEnd` call. -/
def runDragEnd (s : LocalState) (activeProjectId : Option String)
    (ev : DragEndEvent) (commitOk : Bool) : LocalState :=
  runEffects s (handleDragEnd s.tasks activeProjectId ev commitOk)

/-- The remote batches issued by a trace. -/
def writesOf (es : List Effect) : List WriteBatch :=
  es.filterMap fun e =>
    match e with
    | .issueBatch b => some b
    | _ => none

/-- The notification messages emitted by a trace. -/
def notificationsOf (es : List Effect) : List String :=
  es.filterMap fun e =>
    match e with
    | .notify m => some m
    | _ => none

/-! ## Task creation (`addTask`) -/

/-- JS `String.prototype.trim()`: strip leading and trailing whitespace. -/
def jsTrim (s : String) : String :=
  String.mk (((s.data.dropWhile Char.isWhitespace).reverse.dropWhile
    Char.isWhitespace).reverse)

/-- Task creation `addTask`: reject an empty (trimmed) title or a missing active project,
otherwise create the task in the active column with
`order = Math.max(...columnTasks.map(t => t.order || 0), 0) + 100`.
(`t.order || 0` is the identity on integer order values.)  Returns the
title/column/order of the document written, or `none` when nothing happens. -/
def addTask (newTaskTitle : String) (activeProjectId : Option String)
    (tasks : List Task) (activeColumn : Column) : Option (String × Column × Int) :=
  let title := jsTrim newTaskTitle
  if title = "" then none
  else
    match activeProjectId with
    | none => none
    | some _ =>
      let columnTasks := tasks.filter (fun t => t.column == activeColumn)
      let maxOrder := (columnTasks.map (fun t => t.order)).foldr max 0
      some (title, activeColumn, maxOrder + 100)

/-- The order-key spacing constant of the source (`index * 100 + 100`,
`maxOrder + 100`). -/
def GAP : Int := 100

/-- Spec-side description of §4.2 step 4: the stable "remove then insert" move
of the element at position `o` to position `n` — all items between the two
positions shift by one slot, nothing else is reordered. -/
def removeThenInsert (l : List α) (o n : Nat) : List α :=
  match l[o]? with
  | none => l
  | some a =>
    let removed := l.take o ++ l.drop (o + 1)
    removed.take n ++ a :: removed.drop n

/-- The order keys appearing in column `c` of a task list, in sequence order. -/
def ordersInColumn (c : Column) (l : List Task) : List Int :=
  (l.filter (fun t => t.column == c)).map (·.order)

/-- The §3 invariant: within each column, order keys strictly increase along
the displayed sequence (hence are unique, lower = earlier). -/
def OrdersStrictSorted (l : List Task) : Prop :=
  ∀ c, List.Pairwise (· < ·) (ordersInColumn c l)

/-- Claim-side insertion position for a cross-column move: the drop-target
task's position within the target column's current tasks, or the end of the
list for a column drop or an unknown drop-target task (§4.2 step 3). -/
def claimInsertPos (tct : List Task) : OverTarget → Nat
  | .column _ => tct.length
  | .task oid => tct.findIdx (fun t => t.id == oid)

/-- Claim-side old position for a same-column reorder: the active task's
position within the target column's tasks (§4.2 step 4). -/
def claimOldPos (tct : List Task) (activeId : String) : Nat :=
  tct.findIdx (fun t => t.id == activeId)

/-- Claim-side new position for a same-column reorder: the drop-target task's
position, or the last index for a column drop (§4.2 step 4). -/
def claimNewPos (tct : List Task) : OverTarget → Nat
  | .column _ => tct.length - 1
  | .task oid => tct.findIdx (fun t => t.id == oid)

/-! ## Sample data (the worked scenarios of spec §8) -/

/-- Scenario task A: first task of "Not Started". -/
def sampleA : Task := { id := "a1", title := "Task A", column := .notStarted, order := 100 }

/-- Scenario task B: second task of "Not Started". -/
def sampleB : Task := { id := "b2", title := "Task B", column := .notStarted, order := 200 }

/-- Scenario task C: third task of "Not Started". -/
def sampleC : Task := { id := "c3", title := "Task C", column := .notStarted, order := 300 }

/-- The scenario working set: column "Not Started" holds [A, B, C]. -/
def sampleTasks : List Task := [sampleA, sampleB, sampleC]

/-- The scenario local state. -/
def sampleState : LocalState :=
  { tasks := sampleTasks, activeTask := some sampleB, notifications := [] }

/-- Scenario drag: B dropped onto A (same column). -/
def sampleEvBA : DragEndEvent := { activeId := "b2", over := some (.task "a1") }

/-- Scenario drag: A dropped onto the empty "In Progress" column area. -/
def sampleEvA : DragEndEvent := { activeId := "a1", over := some (.column .inProgress) }

/-- The plan produced for the B-onto-A scenario: [B, A, C] in "Not Started". -/
def samplePlanBA : DragPlan :=
  { activeTask := sampleB, targetColumn := .notStarted
    newTasksInColumn := [sampleB, sampleA, sampleC] }

/-- The plan produced for the A-onto-"In Progress" scenario. -/
def samplePlanA : DragPlan :=
  { activeTask := sampleA, targetColumn := .inProgress
    newTasksInColumn := [{ sampleA with column := .inProgress }] }

/-! ## Lemmas about the JavaScript primitives -/

theorem jsFindIndex_spec (p : α → Bool) (l : List α) :
    jsFindIndex p l = if l.findIdx p < l.length then (l.findIdx p : Int) else -1 := by
  induction l with
  | nil => simp [jsFindIndex]
  | cons a as ih =>
    simp only [jsFindIndex, List.findIdx_cons]
    by_cases h : p a
    · simp [h]
    · simp only [h, if_false, cond_false, ih]
      by_cases h2 : as.findIdx p < as.length
      · rw [if_pos h2, if_neg (show ¬ ((as.findIdx p : Int) < 0) by omega),
          if_pos (show as.findIdx p + 1 < (a :: as).length by
            simp only [List.length_cons]; omega)]
        push_cast
        ring
      · rw [if_neg h2, if_pos (show (-1 : Int) < 0 by omega),
          if_neg (show ¬ (as.findIdx p + 1 < (a :: as).length) by
            simp only [List.length_cons]
            have := @List.findIdx_le_length _ p as
            omega)]
        simp

theorem jsFindIndex_eq_findIdx {p : α → Bool} {l : List α} (h : l.findIdx p < l.length) :
    jsFindIndex p l = (l.findIdx p : Int) := by
  rw [jsFindIndex_spec, if_pos h]

theorem jsFindIndex_neg {p : α → Bool} {l : List α} (h : ¬ l.findIdx p < l.length) :
    jsFindIndex p l = -1 := by
  rw [jsFindIndex_spec, if_neg h]

theorem jsFindIndex_nonneg_iff {p : α → Bool} {l : List α} :
    0 ≤ jsFindIndex p l ↔ l.findIdx p < l.length := by
  rw [jsFindIndex_spec]
  by_cases h : l.findIdx p < l.length <;> simp [h]

theorem jsFindIndex_lt_length (p : α → Bool) (l : List α) :
    jsFindIndex p l < (l.length : Int) := by
  rw [jsFindIndex_spec]
  by_cases h : l.findIdx p < l.length
  · rw [if_pos h]
    exact_mod_cast h
  · rw [if_neg h]
    omega

theorem clampIndex_coe {len : Nat} {i : Int} (h0 : 0 ≤ i) (h1 : i ≤ (len : Int)) :
    clampIndex len i = i.toNat := by
  unfold clampIndex
  rw [if_neg (by omega), min_eq_left h1]

theorem spliceInsertAux_eq (a : α) :
    ∀ (n : Nat) (l : List α), n ≤ l.length →
      spliceInsertAux a n l = l.take n ++ a :: l.drop n
  | 0, l, _ => by cases l <;> simp [spliceInsertAux]
  | n + 1, [], h => by simp at h
  | n + 1, x :: xs, h => by
    simp only [spliceInsertAux, List.take_succ_cons, List.drop_succ_cons, List.cons_append,
      List.cons.injEq, true_and]
    exact spliceInsertAux_eq a n xs (by simpa using h)

theorem spliceInsertAux_length (a : α) :
    ∀ (n : Nat) (l : List α), (spliceInsertAux a n l).length = l.length + 1
  | _, [] => by simp [spliceInsertAux]
  | 0, _ :: _ => by simp [spliceInsertAux]
  | n + 1, x :: xs => by
    simp only [spliceInsertAux, List.length_cons, spliceInsertAux_length a n xs]

theorem spliceInsertAux_getElem_self (a : α) (n : Nat) (l : List α) (h : n ≤ l.length) :
    (spliceInsertAux a n l)[n]? = some a := by
  rw [spliceInsertAux_eq a n l h, List.getElem?_append,
    if_neg (by simp only [List.length_take]; omega)]
  simp only [List.length_take, Nat.min_eq_left h, Nat.sub_self, List.getElem?_cons_zero]

theorem spliceRemoveAux_eq :
    ∀ (n : Nat) (l : List α), n < l.length →
      spliceRemoveAux n l = (l[n]?, l.take n ++ l.drop (n + 1))
  | _, [], h => by simp at h
  | 0, x :: xs, _ => by simp [spliceRemoveAux]
  | n + 1, x :: xs, h => by
    simp only [spliceRemoveAux, spliceRemoveAux_eq n xs (by simpa using h),
      List.getElem?_cons_succ, List.take_succ_cons, List.drop_succ_cons, List.cons_append]

theorem arrayMove_eq_removeThenInsert (l : List α) (i j : Int)
    (h0 : 0 ≤ i) (h1 : i < (l.length : Int)) (h2 : 0 ≤ j) (h3 : j < (l.length : Int)) :
    arrayMove l i j = removeThenInsert l i.toNat j.toNat := by
  have hi : clampIndex l.length i = i.toNat := clampIndex_coe h0 (le_of_lt h1)
  have hilen : i.toNat < l.length := by omega
  have ha : l[i.toNat]? = some l[i.toNat] := List.getElem?_eq_getElem hilen
  have hrl : (l.take i.toNat ++ l.drop (i.toNat + 1)).length = l.length - 1 := by
    simp only [List.length_append, List.length_take, List.length_drop]
    omega
  have hcl : clampIndex (l.take i.toNat ++ l.drop (i.toNat + 1)).length j = j.toNat := by
    rw [hrl]
    exact clampIndex_coe h2 (by omega)
  unfold arrayMove jsSpliceRemoveOne
  rw [hi, spliceRemoveAux_eq i.toNat l hilen, ha]
  simp only [jsSpliceInsertOne, if_neg (by omega : ¬ j < 0), hcl]
  rw [spliceInsertAux_eq _ _ _ (by omega)]
  unfold removeThenInsert
  rw [ha]

/-! ## Lemmas about order assignment (`assignOrders`) -/

theorem assignOrders_column (c : Column) :
    ∀ (i : Nat) (l : List Task) (t : Task), t ∈ assignOrders c i l → t.column = c := by
  intro i l
  induction l generalizing i with
  | nil => intro t h; simp [assignOrders] at h
  | cons x xs ih =>
    intro t h
    rcases List.mem_cons.mp h with h | h
    · subst h; rfl
    · exact ih (i + 1) t h

theorem assignOrders_order_ge (c : Column) :
    ∀ (i : Nat) (l : List Task) (t : Task),
      t ∈ assignOrders c i l → (i : Int) * 100 + 100 ≤ t.order := by
  intro i l
  induction l generalizing i with
  | nil => intro t h; simp [assignOrders] at h
  | cons x xs ih =>
    intro t h
    rcases List.mem_cons.mp h with h | h
    · subst h; simp
    · have := ih (i + 1) t h
      push_cast at this ⊢
      omega

theorem assignOrders_pairwise (c : Column) (i : Nat) (l : List Task) :
    List.Pairwise (fun a b => a.order < b.order) (assignOrders c i l) := by
  induction l generalizing i with
  | nil => simp [assignOrders]
  | cons x xs ih =>
    simp only [assignOrders, List.pairwise_cons]
    refine ⟨fun t ht => ?_, ih (i + 1)⟩
    have := assignOrders_order_ge c (i + 1) xs t ht
    show (i : Int) * 100 + 100 < t.order
    push_cast at this
    omega

theorem assignOrders_length (c : Column) :
    ∀ (i : Nat) (l : List Task), (assignOrders c i l).length = l.length := by
  intro i l
  induction l generalizing i with
  | nil => rfl
  | cons x xs ih => simp [assignOrders, ih (i + 1)]

theorem assignOrders_getElem (c : Column) :
    ∀ (i : Nat) (l : List Task) (k : Nat),
      (assignOrders c i l)[k]? = l[k]?.map
        (fun t => { t with order := ((i + k : Nat) : Int) * 100 + 100, column := c }) := by
  intro i l
  induction l generalizing i with
  | nil => intro k; simp [assignOrders]
  | cons x xs ih =>
    intro k
    cases k with
    | zero => simp [assignOrders]
    | succ k =>
      simp only [assignOrders, List.getElem?_cons_succ, ih (i + 1) k]
      have harith : i + 1 + k = i + (k + 1) := by omega
      rw [harith]

theorem assignOrders_map_id (c : Column) :
    ∀ (i : Nat) (l : List Task), (assignOrders c i l).map (·.id) = l.map (·.id) := by
  intro i l
  induction l generalizing i with
  | nil => rfl
  | cons x xs ih => simp [assignOrders, ih (i + 1)]

theorem assignOrders_map_order (c : Column) :
    ∀ (i : Nat) (l : List Task),
      (assignOrders c i l).map (·.order)
        = (List.range l.length).map (fun k => ((i + k : Nat) : Int) * 100 + 100) := by
  intro i l
  refine List.ext_getElem? fun k => ?_
  rw [List.getElem?_map, List.getElem?_map, assignOrders_getElem c i l k]
  by_cases hk : k < l.length
  · rw [List.getElem?_eq_getElem hk, List.getElem?_range (by simpa using hk)]
    rfl
  · rw [List.getElem?_eq_none (by omega), List.getElem?_eq_none (by simpa using hk)]
    rfl

/-! ## Filter helpers -/

theorem filter_and_sublist (p q : α → Bool) (l : List α) :
    List.Sublist (l.filter fun a => p a && q a) (l.filter p) :=
  List.monotone_filter_right l (fun a h => by
    have := Bool.and_elim_left h
    exact this)

/-! ## Structure of the optimistic update -/

theorem optimisticTasks_filter_target (tasks : List Task) (activeId : String) (p : DragPlan) :
    (optimisticTasks tasks activeId p).filter (fun t => t.column == p.targetColumn)
      = assignOrders p.targetColumn 0 p.newTasksInColumn := by
  unfold optimisticTasks
  rw [List.filter_append]
  have h1 : (tasks.filter fun t => !(t.column == p.targetColumn) && !(t.id == activeId)).filter
      (fun t => t.column == p.targetColumn) = [] := by
    rw [List.filter_eq_nil_iff]
    intro a ha
    have := (List.mem_filter.mp ha).2
    simp only [Bool.and_eq_true, Bool.not_eq_true', beq_eq_false_iff_ne] at this
    simp [this.1]
  have h2 : (assignOrders p.targetColumn 0 p.newTasksInColumn).filter
      (fun t => t.column == p.targetColumn) = assignOrders p.targetColumn 0 p.newTasksInColumn := by
    rw [List.filter_eq_self]
    intro a ha
    simp [assignOrders_column p.targetColumn 0 p.newTasksInColumn a ha]
  rw [h1, h2, List.nil_append]

theorem optimisticTasks_filter_other (tasks : List Task) (activeId : String) (p : DragPlan)
    {c : Column} (hc : c ≠ p.targetColumn) :
    (optimisticTasks tasks activeId p).filter (fun t => t.column == c)
      = (tasks.filter fun t => !(t.column == p.targetColumn) && !(t.id == activeId)).filter
          (fun t => t.column == c) := by
  unfold optimisticTasks
  rw [List.filter_append]
  have h2 : (assignOrders p.targetColumn 0 p.newTasksInColumn).filter
      (fun t => t.column == c) = [] := by
    rw [List.filter_eq_nil_iff]
    intro a ha
    have := assignOrders_column p.targetColumn 0 p.newTasksInColumn a ha
    simp [this, Ne.symm hc]
  rw [h2, List.append_nil]

theorem optimisticTasks_filter_other_sublist (tasks : List Task) (activeId : String)
    (p : DragPlan) {c : Column} (hc : c ≠ p.targetColumn) :
    List.Sublist ((optimisticTasks tasks activeId p).filter (fun t => t.column == c))
      (tasks.filter (fun t => t.column == c)) := by
  rw [optimisticTasks_filter_other tasks activeId p hc, List.filter_filter]
  exact filter_and_sublist _ _ tasks

/-! ## Unfolding lemmas for the planner and the handler -/

theorem planDragEnd_cross {tasks : List Task} {ev : DragEndEvent} {over : OverTarget}
    {aTask : Task} {B : Column}
    (h1 : ev.over = some over)
    (h2 : tasks.find? (fun t => t.id == ev.activeId) = some aTask)
    (h3 : resolveTargetColumn tasks over = some B)
    (h4 : aTask.column ≠ B) :
    planDragEnd tasks ev = some ⟨aTask, B,
      jsSpliceInsertOne (tasks.filter fun t => t.column == B)
        (crossInsertIndex ((tasks.filter fun t => t.column == B).map (·.id)) over)
        { aTask with column := B }⟩ := by
  simp only [planDragEnd, h1, h2, h3]
  rw [if_pos h4]

theorem planDragEnd_same_some {tasks : List Task} {ev : DragEndEvent} {over : OverTarget}
    {aTask : Task} {B : Column}
    (h1 : ev.over = some over)
    (h2 : tasks.find? (fun t => t.id == ev.activeId) = some aTask)
    (h3 : resolveTargetColumn tasks over = some B)
    (h4 : aTask.column = B)
    (hne : jsFindIndex (fun t => t.id == ev.activeId) (tasks.filter fun t => t.column == B)
      ≠ sameColumnNewIndex (tasks.filter fun t => t.column == B) over) :
    planDragEnd tasks ev = some ⟨aTask, B,
      arrayMove (tasks.filter fun t => t.column == B)
        (jsFindIndex (fun t => t.id == ev.activeId) (tasks.filter fun t => t.column == B))
        (sameColumnNewIndex (tasks.filter fun t => t.column == B) over)⟩ := by
  simp only [planDragEnd, h1, h2, h3]
  rw [if_neg (by simp [h4]), if_neg hne]

theorem planDragEnd_same_none {tasks : List Task} {ev : DragEndEvent} {over : OverTarget}
    {aTask : Task} {B : Column}
    (h1 : ev.over = some over)
    (h2 : tasks.find? (fun t => t.id == ev.activeId) = some aTask)
    (h3 : resolveTargetColumn tasks over = some B)
    (h4 : aTask.column = B)
    (heq : jsFindIndex (fun t => t.id == ev.activeId) (tasks.filter fun t => t.column == B)
      = sameColumnNewIndex (tasks.filter fun t => t.column == B) over) :
    planDragEnd tasks ev = none := by
  simp only [planDragEnd, h1, h2, h3]
  rw [if_neg (by simp [h4]), if_pos heq]

theorem handleDragEnd_of_plan_none {tasks : List Task} {pid : Option String}
    {ev : DragEndEvent} {ok : Bool} (h : planDragEnd tasks ev = none) :
    handleDragEnd tasks pid ev ok = [Effect.clearActiveTask] := by
  simp [handleDragEnd, h]

theorem handleDragEnd_of_pid_none {tasks : List Task} {ev : DragEndEvent} {ok : Bool}
    {p : DragPlan} (h : planDragEnd tasks ev = some p) :
    handleDragEnd tasks none ev ok =
      [Effect.clearActiveTask,
        Effect.applyOptimistic (optimisticTasks tasks ev.activeId p)] := by
  simp [handleDragEnd, h]

theorem handleDragEnd_of_pid_some {tasks : List Task} {ev : DragEndEvent} {ok : Bool}
    {pidv : String} {p : DragPlan} (h : planDragEnd tasks ev = some p) :
    handleDragEnd tasks (some pidv) ev ok =
      Effect.clearActiveTask ::
        Effect.applyOptimistic (optimisticTasks tasks ev.activeId p) ::
          Effect.issueBatch (mkWriteBatch ev.activeId p) ::
            (if ok then [] else [Effect.notify "Failed to save new order"]) := by
  simp [handleDragEnd, h]

theorem runDragEnd_of_plan_none {s : LocalState} {pid : Option String}
    {ev : DragEndEvent} {ok : Bool} (h : planDragEnd s.tasks ev = none) :
    runDragEnd s pid ev ok = { s with activeTask := none } := by
  simp [runDragEnd, handleDragEnd_of_plan_none h, runEffects, applyEffect]

theorem runDragEnd_tasks_of_plan {s : LocalState} {pid : Option String}
    {ev : DragEndEvent} {ok : Bool} {p : DragPlan} (h : planDragEnd s.tasks ev = some p) :
    (runDragEnd s pid ev ok).tasks = optimisticTasks s.tasks ev.activeId p := by
  cases pid <;> cases ok <;>
    simp [runDragEnd, handleDragEnd_of_pid_none h, handleDragEnd_of_pid_some h,
      runEffects, applyEffect]

theorem runDragEnd_activeTask (s : LocalState) (pid : Option String)
    (ev : DragEndEvent) (ok : Bool) :
    (runDragEnd s pid ev ok).activeTask = none := by
  rcases hp : planDragEnd s.tasks ev with _ | p
  · simp [runDragEnd_of_plan_none hp]
  · cases pid <;> cases ok <;>
      simp [runDragEnd, handleDragEnd_of_pid_none hp, handleDragEnd_of_pid_some hp,
        runEffects, applyEffect]

theorem writesOf_of_plan_none {tasks : List Task} {pid : Option String}
    {ev : DragEndEvent} {ok : Bool} (h : planDragEnd tasks ev = none) :
    writesOf (handleDragEnd tasks pid ev ok) = [] := by
  simp [handleDragEnd_of_plan_none h, writesOf]

theorem writesOf_of_pid_none {tasks : List Task} {ev : DragEndEvent} {ok : Bool}
    {p : DragPlan} (h : planDragEnd tasks ev = some p) :
    writesOf (handleDragEnd tasks none ev ok) = [] := by
  simp [handleDragEnd_of_pid_none h, writesOf]

theorem writesOf_of_pid_some {tasks : List Task} {ev : DragEndEvent} {ok : Bool}
    {pidv : String} {p : DragPlan} (h : planDragEnd tasks ev = some p) :
    writesOf (handleDragEnd tasks (some pidv) ev ok) = [mkWriteBatch ev.activeId p] := by
  cases ok <;> simp [handleDragEnd_of_pid_some h, writesOf]

theorem notificationsOf_of_plan_none {tasks : List Task} {pid : Option String}
    {ev : DragEndEvent} {ok : Bool} (h : planDragEnd tasks ev = none) :
    notificationsOf (handleDragEnd tasks pid ev ok) = [] := by
  simp [handleDragEnd_of_plan_none h, notificationsOf]

theorem notificationsOf_of_pid_none {tasks : List Task} {ev : DragEndEvent} {ok : Bool}
    {p : DragPlan} (h : planDragEnd tasks ev = some p) :
    notificationsOf (handleDragEnd tasks none ev ok) = [] := by
  simp [handleDragEnd_of_pid_none h, notificationsOf]

theorem notificationsOf_commit_ok {tasks : List Task} {ev : DragEndEvent}
    {pidv : String} {p : DragPlan} (h : planDragEnd tasks ev = some p) :
    notificationsOf (handleDragEnd tasks (some pidv) ev true) = [] := by
  simp [handleDragEnd_of_pid_some h, notificationsOf]

theorem notificationsOf_commit_fail {tasks : List Task} {ev : DragEndEvent}
    {pidv : String} {p : DragPlan} (h : planDragEnd tasks ev = some p) :
    notificationsOf (handleDragEnd tasks (some pidv) ev false)
      = ["Failed to save new order"] := by
  simp [handleDragEnd_of_pid_some h, notificationsOf]

theorem runDragEnd_notifications_of_ok {s : LocalState} {ev : DragEndEvent}
    {pidv : String} {p : DragPlan} (h : planDragEnd s.tasks ev = some p) :
    (runDragEnd s (some pidv) ev true).notifications = s.notifications := by
  simp [runDragEnd, handleDragEnd_of_pid_some h, runEffects, applyEffect]

theorem runDragEnd_notifications_of_fail {s : LocalState} {ev : DragEndEvent}
    {pidv : String} {p : DragPlan} (h : planDragEnd s.tasks ev = some p) :
    (runDragEnd s (some pidv) ev false).notifications
      = s.notifications ++ ["Failed to save new order"] := by
  simp [runDragEnd, handleDragEnd_of_pid_some h, runEffects, applyEffect]

/-! ## Further helper lemmas -/

theorem jsFindIndex_map (p : β → Bool) (f : α → β) (l : List α) :
    jsFindIndex p (l.map f) = jsFindIndex (fun a => p (f a)) l := by
  induction l with
  | nil => rfl
  | cons a as ih => simp only [List.map_cons, jsFindIndex, ih]

theorem foldr_max_nonneg (l : List Int) : 0 ≤ l.foldr max 0 := by
  induction l with
  | nil => simp
  | cons x xs ih => exact le_trans ih (le_max_right x _)

theorem le_foldr_max (l : List Int) (x : Int) (h : x ∈ l) : x ≤ l.foldr max 0 := by
  induction l with
  | nil => simp at h
  | cons y ys ih =>
    rcases List.mem_cons.mp h with h | h
    · subst h; exact le_max_left x _
    · exact le_trans (ih h) (le_max_right y _)

theorem foldr_max_mem (l : List Int) : l.foldr max 0 = 0 ∨ l.foldr max 0 ∈ l := by
  induction l with
  | nil => simp
  | cons x xs ih =>
    rcases max_choice x (xs.foldr max 0) with h | h
    · right; rw [List.foldr_cons, h]; exact List.mem_cons_self x xs
    · rcases ih with h2 | h2
      · left; rw [List.foldr_cons, h, h2]
      · right; rw [List.foldr_cons, h]; exact List.mem_cons_of_mem x h2

theorem removeThenInsert_length (l : List α) (o n : Nat) (ho : o < l.length) :
    (removeThenInsert l o n).length = l.length := by
  unfold removeThenInsert
  rw [List.getElem?_eq_getElem ho]
  simp only [List.length_append, List.length_take, List.length_cons, List.length_drop]
  omega

theorem batchOrderUpdates_eq_filterMap (a : String) :
    ∀ (i : Nat) (l : List Task),
      batchOrderUpdates a i l = (List.range l.length).filterMap (fun k =>
        (l[k]?).bind (fun t =>
          if t.order ≠ ((i + k : Nat) : Int) * 100 + 100 ∨ t.id = a
          then some (t.id, ((i + k : Nat) : Int) * 100 + 100) else none)) := by
  intro i l
  induction l generalizing i with
  | nil => simp [batchOrderUpdates]
  | cons x xs ih =>
    have htail : (List.range xs.length).filterMap
        ((fun k => ((x :: xs)[k]?).bind (fun t =>
          if t.order ≠ ((i + k : Nat) : Int) * 100 + 100 ∨ t.id = a
          then some (t.id, ((i + k : Nat) : Int) * 100 + 100) else none)) ∘ Nat.succ)
        = batchOrderUpdates a (i + 1) xs := by
      rw [ih (i + 1)]
      refine List.filterMap_congr fun k _ => ?_
      have harith : i + (k + 1) = i + 1 + k := by omega
      simp only [Function.comp_apply, Nat.succ_eq_add_one, List.getElem?_cons_succ, harith]
    by_cases hcond : x.order ≠ (i : Int) * 100 + 100 ∨ x.id = a
    · have hb : (x.order != (i : Int) * 100 + 100 || x.id == a) = true := by
        rcases hcond with h | h
        · simp [bne_iff_ne, h]
        · simp [h]
      simp only [batchOrderUpdates, hb, if_true, List.length_cons, List.range_succ_eq_map,
        List.filterMap_cons, List.filterMap_map, List.getElem?_cons_zero, Option.some_bind,
        Nat.add_zero, if_pos hcond, htail]
    · have hb : (x.order != (i : Int) * 100 + 100 || x.id == a) = false := by
        push_neg at hcond
        simp [hcond.1, hcond.2]
      simp only [batchOrderUpdates, hb, Bool.false_eq_true, if_false, List.length_cons,
        List.range_succ_eq_map, List.filterMap_cons, List.filterMap_map,
        List.getElem?_cons_zero, Option.some_bind, Nat.add_zero, if_neg hcond, htail]

theorem batchOrderUpdates_sub_assign (a : String) (c : Column) :
    ∀ (i : Nat) (l : List Task) (u : String × Int),
      u ∈ batchOrderUpdates a i l →
        ∃ t ∈ assignOrders c i l, t.id = u.1 ∧ t.order = u.2 := by
  intro i l
  induction l generalizing i with
  | nil => intro u h; simp [batchOrderUpdates] at h
  | cons x xs ih =>
    intro u h
    simp only [batchOrderUpdates] at h
    by_cases hcond : (x.order != (i : Int) * 100 + 100 || x.id == a) = true
    · rw [if_pos hcond] at h
      rcases List.mem_cons.mp h with h | h
      · subst h
        exact ⟨{ x with order := (i : Int) * 100 + 100, column := c },
          List.mem_cons_self _ _, rfl, rfl⟩
      · obtain ⟨t, ht, h1, h2⟩ := ih (i + 1) u h
        exact ⟨t, List.mem_cons_of_mem _ ht, h1, h2⟩
    · rw [if_neg hcond] at h
      obtain ⟨t, ht, h1, h2⟩ := ih (i + 1) u h
      exact ⟨t, List.mem_cons_of_mem _ ht, h1, h2⟩

/-! ## Claim theorems -/

/-- C4: a same-column drag end whose computed old index equals the computed new
index (dropping a task at its own position) leaves the task list byte-for-byte
identical (the whole local state changes only by clearing the drag session),
issues no remote write, and emits no notification. -/
theorem c4_same_position_noop (s : LocalState) (pid : Option String) (ev : DragEndEvent)
    (ok : Bool) (over : OverTarget) (aTask : Task) (B : Column)
    (h1 : ev.over = some over)
    (h2 : s.tasks.find? (fun t => t.id == ev.activeId) = some aTask)
    (h3 : resolveTargetColumn s.tasks over = some B)
    (h4 : aTask.column = B)
    (h5 : jsFindIndex (fun t => t.id == ev.activeId) (s.tasks.filter fun t => t.column == B)
      = sameColumnNewIndex (s.tasks.filter fun t => t.column == B) over) :
    runDragEnd s pid ev ok = { s with activeTask := none } ∧
    writesOf (handleDragEnd s.tasks pid ev ok) = [] ∧
    notificationsOf (handleDragEnd s.tasks pid ev ok) = [] := by
  have hplan := planDragEnd_same_none h1 h2 h3 h4 h5
  exact ⟨runDragEnd_of_plan_none hplan, writesOf_of_plan_none hplan,
    notificationsOf_of_plan_none hplan⟩

/-- Witness for C4: dropping B onto itself in the scenario state is a no-op. -/
theorem c4_same_position_noop_witness :
    runDragEnd sampleState (some "proj") ⟨"b2", some (.task "b2")⟩ true
        = { sampleState with activeTask := none } ∧
      writesOf (handleDragEnd sampleState.tasks (some "proj")
        ⟨"b2", some (.task "b2")⟩ true) = [] ∧
      notificationsOf (handleDragEnd sampleState.tasks (some "proj")
        ⟨"b2", some (.task "b2")⟩ true) = [] :=
  c4_same_position_noop sampleState (some "proj") ⟨"b2", some (.task "b2")⟩ true
    (.task "b2") sampleB .notStarted rfl (by decide) (by decide) (by decide) (by decide)

/-- C6: when the batch write fails, the handler adds exactly one error
notification, "Failed to save new order"; the write is issued exactly once (no
retry); and the in-memory task list keeps the already-applied optimistic state
(identical to the success case — no revert). -/
theorem c6_write_failure (s : LocalState) (pidv : String) (ev : DragEndEvent) (p : DragPlan)
    (h : planDragEnd s.tasks ev = some p) :
    (runDragEnd s (some pidv) ev false).tasks = optimisticTasks s.tasks ev.activeId p ∧
    (runDragEnd s (some pidv) ev false).tasks = (runDragEnd s (some pidv) ev true).tasks ∧
    writesOf (handleDragEnd s.tasks (some pidv) ev false) = [mkWriteBatch ev.activeId p] ∧
    notificationsOf (handleDragEnd s.tasks (some pidv) ev false)
      = ["Failed to save new order"] ∧
    (runDragEnd s (some pidv) ev false).notifications
      = s.notifications ++ ["Failed to save new order"] := by
  refine ⟨runDragEnd_tasks_of_plan h, ?_, writesOf_of_pid_some h,
    notificationsOf_commit_fail h, runDragEnd_notifications_of_fail h⟩
  rw [runDragEnd_tasks_of_plan h, runDragEnd_tasks_of_plan h]

/-- Witness for C6: a failing commit for the B-onto-A scenario. -/
theorem c6_write_failure_witness :
    (runDragEnd sampleState (some "proj") sampleEvBA false).tasks
        = optimisticTasks sampleState.tasks sampleEvBA.activeId samplePlanBA ∧
      (runDragEnd sampleState (some "proj") sampleEvBA false).tasks
        = (runDragEnd sampleState (some "proj") sampleEvBA true).tasks ∧
      writesOf (handleDragEnd sampleState.tasks (some "proj") sampleEvBA false)
        = [mkWriteBatch sampleEvBA.activeId samplePlanBA] ∧
      notificationsOf (handleDragEnd sampleState.tasks (some "proj") sampleEvBA false)
        = ["Failed to save new order"] ∧
      (runDragEnd sampleState (some "proj") sampleEvBA false).notifications
        = sampleState.notifications ++ ["Failed to save new order"] :=
  c6_write_failure sampleState "proj" sampleEvBA samplePlanBA (by decide)

/-- C7: the drag session state is cleared on every drag end; and a drag end
without a drop target, or whose drop-target task no longer exists in the
working set, is a complete no-op: no task-list change, no remote write, no
notification. -/
theorem c7_invalid_target_noop :
    (∀ (s : LocalState) (pid : Option String) (ev : DragEndEvent) (ok : Bool),
      (runDragEnd s pid ev ok).activeTask = none) ∧
    (∀ (s : LocalState) (pid : Option String) (ev : DragEndEvent) (ok : Bool),
      (ev.over = none ∨
        ∃ oid, ev.over = some (OverTarget.task oid) ∧ ∀ t ∈ s.tasks, t.id ≠ oid) →
      runDragEnd s pid ev ok = { s with activeTask := none } ∧
      writesOf (handleDragEnd s.tasks pid ev ok) = [] ∧
      notificationsOf (handleDragEnd s.tasks pid ev ok) = []) := by
  refine ⟨runDragEnd_activeTask, fun s pid ev ok h => ?_⟩
  have hplan : planDragEnd s.tasks ev = none := by
    rcases h with h | ⟨oid, hov, habs⟩
    · simp [planDragEnd, h]
    · have hres : resolveTargetColumn s.tasks (OverTarget.task oid) = none := by
        simp only [resolveTargetColumn]
        rw [List.find?_eq_none.mpr fun t ht => by simpa using habs t ht]
        rfl
      simp only [planDragEnd, hov, hres]
      cases s.tasks.find? (fun t => t.id == ev.activeId) <;> rfl
  exact ⟨runDragEnd_of_plan_none hplan, writesOf_of_plan_none hplan,
    notificationsOf_of_plan_none hplan⟩

/-- Witness for C7: a drag end with no drop target over the scenario state. -/
theorem c7_invalid_target_noop_witness :
    runDragEnd sampleState (some "proj") ⟨"b2", none⟩ true
        = { sampleState with activeTask := none } ∧
      writesOf (handleDragEnd sampleState.tasks (some "proj") ⟨"b2", none⟩ true) = [] ∧
      notificationsOf (handleDragEnd sampleState.tasks (some "proj") ⟨"b2", none⟩ true) = [] :=
  c7_invalid_target_noop.2 sampleState (some "proj") ⟨"b2", none⟩ true (Or.inl rfl)

/-- C9: whenever a drag end issues a remote batch write, the effect trace
contains the optimistic local update strictly before the batch, and the applied
task list is exactly the planned optimistic one. -/
theorem c9_optimistic_before_write (tasks : List Task) (pid : Option String)
    (ev : DragEndEvent) (ok : Bool) (b : WriteBatch)
    (h : Effect.issueBatch b ∈ handleDragEnd tasks pid ev ok) :
    ∃ (i j : Nat) (newTasks : List Task), i < j ∧
      (handleDragEnd tasks pid ev ok)[i]? = some (Effect.applyOptimistic newTasks) ∧
      (handleDragEnd tasks pid ev ok)[j]? = some (Effect.issueBatch b) ∧
      ∀ p, planDragEnd tasks ev = some p → newTasks = optimisticTasks tasks ev.activeId p := by
  rcases hp : planDragEnd tasks ev with _ | p
  · rw [handleDragEnd_of_plan_none hp] at h
    simp at h
  · cases pid with
    | none =>
      rw [handleDragEnd_of_pid_none hp] at h
      simp at h
    | some pidv =>
      have hb : b = mkWriteBatch ev.activeId p := by
        rw [handleDragEnd_of_pid_some hp] at h
        cases ok <;> simpa using h
      refine ⟨1, 2, optimisticTasks tasks ev.activeId p, by omega, ?_, ?_, ?_⟩
      · rw [handleDragEnd_of_pid_some hp]
        rfl
      · rw [handleDragEnd_of_pid_some hp, hb]
        cases ok <;> rfl
      · intro p' hp'
        cases hp'
        rfl

/-- Witness for C9: in the B-onto-A scenario trace, the optimistic update (at
position 1) precedes the batch write (at position 2). -/
theorem c9_optimistic_before_write_witness :
    (Effect.issueBatch (mkWriteBatch "b2" samplePlanBA)
        ∈ handleDragEnd sampleTasks (some "proj") sampleEvBA true) ∧
      ∃ (i j : Nat) (newTasks : List Task), i < j ∧
        (handleDragEnd sampleTasks (some "proj") sampleEvBA true)[i]?
          = some (Effect.applyOptimistic newTasks) ∧
        (handleDragEnd sampleTasks (some "proj") sampleEvBA true)[j]?
          = some (Effect.issueBatch (mkWriteBatch "b2" samplePlanBA)) ∧
        ∀ p, planDragEnd sampleTasks sampleEvBA = some p →
          newTasks = optimisticTasks sampleTasks sampleEvBA.activeId p :=
  ⟨by decide, c9_optimistic_before_write sampleTasks (some "proj") sampleEvBA true
    (mkWriteBatch "b2" samplePlanBA) (by decide)⟩

/-- C10: with no active project, a planned reorder still applies the optimistic
update to the in-memory list (the same task list as with a project selected),
but no remote write is attempted and no notification is shown. -/
theorem c10_no_active_project (s : LocalState) (ev : DragEndEvent) (ok : Bool) (p : DragPlan)
    (h : planDragEnd s.tasks ev = some p) :
    (runDragEnd s none ev ok).tasks = optimisticTasks s.tasks ev.activeId p ∧
    writesOf (handleDragEnd s.tasks none ev ok) = [] ∧
    notificationsOf (handleDragEnd s.tasks none ev ok) = [] ∧
    (runDragEnd s none ev ok).notifications = s.notifications ∧
    ∀ pidv : String, (runDragEnd s none ev ok).tasks = (runDragEnd s (some pidv) ev true).tasks := by
  refine ⟨runDragEnd_tasks_of_plan h, writesOf_of_pid_none h, notificationsOf_of_pid_none h,
    ?_, fun pidv => ?_⟩
  · simp [runDragEnd, handleDragEnd_of_pid_none h, runEffects, applyEffect]
  · rw [runDragEnd_tasks_of_plan h, runDragEnd_tasks_of_plan h]

/-- C5: for a planned reorder with an active project, exactly one batch write
is issued; it contains a column update — keyed by the active task and setting
the target column — precisely when the active task's column changed, and an
order update for precisely those positions of the new sequence whose order key
changed, the active task always included; the written order keys `(k+1)*GAP`
equal the ones applied optimistically. -/
theorem c5_batch_contents (tasks : List Task) (pidv : String) (ev : DragEndEvent)
    (ok : Bool) (p : DragPlan) (h : planDragEnd tasks ev = some p) :
    writesOf (handleDragEnd tasks (some pidv) ev ok) = [mkWriteBatch ev.activeId p] ∧
    ((mkWriteBatch ev.activeId p).columnUpdate ≠ none
      ↔ p.activeTask.column ≠ p.targetColumn) ∧
    (∀ u, (mkWriteBatch ev.activeId p).columnUpdate = some u
      → u = (ev.activeId, p.targetColumn)) ∧
    (mkWriteBatch ev.activeId p).orderUpdates
      = (List.range p.newTasksInColumn.length).filterMap (fun (k : Nat) =>
          (p.newTasksInColumn[k]?).bind (fun t =>
            if t.order ≠ ((k : Int) + 1) * GAP ∨ t.id = ev.activeId
            then some (t.id, ((k : Int) + 1) * GAP) else none)) ∧
    (∀ u ∈ (mkWriteBatch ev.activeId p).orderUpdates,
      ∃ t ∈ optimisticTasks tasks ev.activeId p,
        t.id = u.1 ∧ t.order = u.2 ∧ t.column = p.targetColumn) := by
  refine ⟨writesOf_of_pid_some h, ?_, ?_, ?_, ?_⟩
  · simp only [mkWriteBatch]
    by_cases hc : p.activeTask.column = p.targetColumn
    · simp [hc]
    · simp [hc]
  · intro u hu
    simp only [mkWriteBatch] at hu
    by_cases hc : p.activeTask.column ≠ p.targetColumn
    · rw [if_pos hc] at hu
      exact (Option.some.inj hu).symm
    · rw [if_neg hc] at hu
      cases hu
  · show batchOrderUpdates ev.activeId 0 p.newTasksInColumn = _
    rw [batchOrderUpdates_eq_filterMap ev.activeId 0 p.newTasksInColumn]
    refine List.filterMap_congr fun k _ => ?_
    have harith : ((0 + k : Nat) : Int) * 100 + 100 = ((k : Int) + 1) * GAP := by
      simp only [GAP]
      push_cast
      ring
    rw [harith]
  · intro u hu
    obtain ⟨t, ht, ht1, ht2⟩ :=
      batchOrderUpdates_sub_assign ev.activeId p.targetColumn 0 p.newTasksInColumn u hu
    refine ⟨t, ?_, ht1, ht2, assignOrders_column _ _ _ _ ht⟩
    unfold optimisticTasks
    exact List.mem_append_right _ ht

/-- C1: a drag end moving task T from column A to a different column B removes
T from A's sequence, inserts T into B's sequence at the claimed position — the
drop-target task's position within B's current tasks, or the end of the list
for a column drop or an unknown drop-target task — with T's column field set to
B, and B's new sequence carries strictly increasing renumbered order keys. -/
theorem c1_cross_column_move (s : LocalState) (pid : Option String) (ev : DragEndEvent)
    (ok : Bool) (over : OverTarget) (aTask : Task) (B : Column)
    (h1 : ev.over = some over)
    (h2 : s.tasks.find? (fun t => t.id == ev.activeId) = some aTask)
    (h3 : resolveTargetColumn s.tasks over = some B)
    (h4 : aTask.column ≠ B) :
    (∀ t ∈ (runDragEnd s pid ev ok).tasks, t.column = aTask.column → t.id ≠ ev.activeId) ∧
    (∃ t, ((runDragEnd s pid ev ok).tasks.filter
        (fun t => t.column == B))[claimInsertPos (s.tasks.filter fun t => t.column == B) over]?
          = some t ∧
      t.id = ev.activeId ∧ t.column = B ∧
      t.order = ((claimInsertPos (s.tasks.filter fun t => t.column == B) over : Int) + 1) * GAP) ∧
    List.Pairwise (fun a b => a.order < b.order)
      ((runDragEnd s pid ev ok).tasks.filter (fun t => t.column == B)) := by
  have haid : aTask.id = ev.activeId := by simpa using List.find?_some h2
  have hplan := planDragEnd_cross h1 h2 h3 h4
  have htasks := @runDragEnd_tasks_of_plan s pid ev ok _ hplan
  have hfilter := optimisticTasks_filter_target s.tasks ev.activeId
    ⟨aTask, B, jsSpliceInsertOne (s.tasks.filter fun t => t.column == B)
      (crossInsertIndex ((s.tasks.filter fun t => t.column == B).map (·.id)) over)
      { aTask with column := B }⟩
  have hle : claimInsertPos (s.tasks.filter fun t => t.column == B) over
      ≤ (s.tasks.filter fun t => t.column == B).length := by
    cases over with
    | column c0 => exact le_refl _
    | task oid => exact List.findIdx_le_length _
  have hsplice : jsSpliceInsertOne (s.tasks.filter fun t => t.column == B)
      (crossInsertIndex ((s.tasks.filter fun t => t.column == B).map (·.id)) over)
      { aTask with column := B }
        = spliceInsertAux { aTask with column := B }
            (claimInsertPos (s.tasks.filter fun t => t.column == B) over)
            (s.tasks.filter fun t => t.column == B) := by
    unfold jsSpliceInsertOne
    congr 1
    cases over with
    | column c0 =>
      show clampIndex _ (((s.tasks.filter fun t => t.column == B).map (·.id)).length : Int)
        = (s.tasks.filter fun t => t.column == B).length
      rw [List.length_map, clampIndex_coe (by omega) (by omega)]
      simp
    | task oid =>
      show clampIndex _ (crossInsertIndex _ (.task oid)) = List.findIdx _ _
      have hmap : jsIndexOf ((s.tasks.filter fun t => t.column == B).map (·.id)) oid
          = jsFindIndex (fun t => t.id == oid) (s.tasks.filter fun t => t.column == B) := by
        unfold jsIndexOf
        exact jsFindIndex_map _ _ _
      simp only [crossInsertIndex, hmap]
      by_cases hf : (s.tasks.filter fun t => t.column == B).findIdx
          (fun t => t.id == oid) < (s.tasks.filter fun t => t.column == B).length
      · rw [jsFindIndex_eq_findIdx hf, if_pos (by omega),
          clampIndex_coe (by omega) (by omega)]
        simp
      · have hlen : (s.tasks.filter fun t => t.column == B).findIdx (fun t => t.id == oid)
            = (s.tasks.filter fun t => t.column == B).length := by
          have := @List.findIdx_le_length _ (fun t => t.id == oid)
            (s.tasks.filter fun t => t.column == B)
          omega
        rw [jsFindIndex_neg hf, if_neg (by omega), List.length_map,
          clampIndex_coe (by omega) (by omega), hlen]
        simp
  refine ⟨?_, ?_, ?_⟩
  · intro t ht hcol
    rw [htasks] at ht
    unfold optimisticTasks at ht
    rcases List.mem_append.mp ht with ht | ht
    · have := (List.mem_filter.mp ht).2
      simp only [Bool.and_eq_true, Bool.not_eq_true', beq_eq_false_iff_ne] at this
      exact this.2
    · have := assignOrders_column _ _ _ _ ht
      exact absurd (hcol ▸ this) h4
  · rw [htasks, hfilter, hsplice, assignOrders_getElem,
      spliceInsertAux_getElem_self _ _ _ hle]
    refine ⟨_, rfl, haid, rfl, ?_⟩
    show ((0 + claimInsertPos (s.tasks.filter fun t => t.column == B) over : Nat) : Int)
        * 100 + 100 = _
    simp only [GAP]
    push_cast
    ring
  · rw [htasks, hfilter]
    exact assignOrders_pairwise _ _ _

/-- Witness for C1: the spec §8 scenario — dragging A from "Not Started" onto
the empty "In Progress" column puts A alone into "In Progress" with order 100
and removes it from "Not Started". -/
theorem c1_cross_column_move_witness :
    (∀ t ∈ (runDragEnd sampleState (some "proj") sampleEvA true).tasks,
      t.column = sampleA.column → t.id ≠ sampleEvA.activeId) ∧
      (∃ t, ((runDragEnd sampleState (some "proj") sampleEvA true).tasks.filter
          (fun t => t.column == Column.inProgress))[claimInsertPos
            (sampleState.tasks.filter fun t => t.column == Column.inProgress)
            (OverTarget.column Column.inProgress)]?
            = some t ∧
        t.id = sampleEvA.activeId ∧ t.column = Column.inProgress ∧
        t.order = ((claimInsertPos
          (sampleState.tasks.filter fun t => t.column == Column.inProgress)
          (OverTarget.column Column.inProgress) : Int) + 1) * GAP) ∧
      List.Pairwise (fun a b => a.order < b.order)
        ((runDragEnd sampleState (some "proj") sampleEvA true).tasks.filter
          (fun t => t.column == Column.inProgress)) ∧
      (runDragEnd sampleState (some "proj") sampleEvA true).tasks
        = [sampleB, sampleC, { sampleA with column := Column.inProgress }] :=
  ⟨(c1_cross_column_move sampleState (some "proj") sampleEvA true
      (OverTarget.column Column.inProgress) sampleA Column.inProgress
      rfl (by decide) rfl (by decide)).1,
    (c1_cross_column_move sampleState (some "proj") sampleEvA true
      (OverTarget.column Column.inProgress) sampleA Column.inProgress
      rfl (by decide) rfl (by decide)).2.1,
    (c1_cross_column_move sampleState (some "proj") sampleEvA true
      (OverTarget.column Column.inProgress) sampleA Column.inProgress
      rfl (by decide) rfl (by decide)).2.2,
    by decide⟩

/-- Witness for C5: the batch of the B-onto-A scenario — both moved tasks are
written with their optimistic orders, the unmoved task C and the column update
are skipped. -/
theorem c5_batch_contents_witness :
    writesOf (handleDragEnd sampleTasks (some "proj") sampleEvBA true)
        = [mkWriteBatch sampleEvBA.activeId samplePlanBA] ∧
      (mkWriteBatch sampleEvBA.activeId samplePlanBA).orderUpdates
        = (List.range samplePlanBA.newTasksInColumn.length).filterMap (fun (k : Nat) =>
            (samplePlanBA.newTasksInColumn[k]?).bind (fun t =>
              if t.order ≠ ((k : Int) + 1) * GAP ∨ t.id = sampleEvBA.activeId
              then some (t.id, ((k : Int) + 1) * GAP) else none)) ∧
      (mkWriteBatch "b2" samplePlanBA).orderUpdates = [("b2", 100), ("a1", 200)] ∧
      (mkWriteBatch "b2" samplePlanBA).columnUpdate = none :=
  ⟨(c5_batch_contents sampleTasks "proj" sampleEvBA true samplePlanBA (by decide)).1,
    (c5_batch_contents sampleTasks "proj" sampleEvBA true samplePlanBA (by decide)).2.2.2.1,
    by decide, by decide⟩

/-- C2: a same-column drag end whose old and new positions differ (the new
position being the drop-target task's position, or the last index for a column
drop) replaces the column's sequence by the stable remove-then-insert move of
the active task from the old position to the new one, with order keys
reassigned `GAP, 2*GAP, ...` by position. -/
theorem c2_same_column_move (s : LocalState) (pid : Option String) (ev : DragEndEvent)
    (ok : Bool) (over : OverTarget) (aTask : Task) (B : Column)
    (h1 : ev.over = some over)
    (h2 : s.tasks.find? (fun t => t.id == ev.activeId) = some aTask)
    (h3 : resolveTargetColumn s.tasks over = some B)
    (h4 : aTask.column = B)
    (hne : claimOldPos (s.tasks.filter fun t => t.column == B) ev.activeId
      ≠ claimNewPos (s.tasks.filter fun t => t.column == B) over) :
    (runDragEnd s pid ev ok).tasks.filter (fun t => t.column == B)
      = assignOrders B 0 (removeThenInsert (s.tasks.filter fun t => t.column == B)
          (claimOldPos (s.tasks.filter fun t => t.column == B) ev.activeId)
          (claimNewPos (s.tasks.filter fun t => t.column == B) over)) ∧
    ((runDragEnd s pid ev ok).tasks.filter (fun t => t.column == B)).map (·.order)
      = (List.range (s.tasks.filter fun t => t.column == B).length).map
          (fun (k : Nat) => ((k : Int) + 1) * GAP) := by
  have hmem : aTask ∈ s.tasks.filter (fun t => t.column == B) :=
    List.mem_filter.mpr ⟨List.mem_of_find?_eq_some h2, by simp [h4]⟩
  have hpa := List.find?_some h2
  have holdlt : (s.tasks.filter fun t => t.column == B).findIdx
      (fun t => t.id == ev.activeId) < (s.tasks.filter fun t => t.column == B).length :=
    List.findIdx_lt_length_of_exists ⟨aTask, hmem, hpa⟩
  have hlen1 : 0 < (s.tasks.filter fun t => t.column == B).length :=
    List.length_pos_of_mem hmem
  have holdInt : jsFindIndex (fun t => t.id == ev.activeId)
      (s.tasks.filter fun t => t.column == B)
        = ((claimOldPos (s.tasks.filter fun t => t.column == B) ev.activeId : Nat) : Int) :=
    jsFindIndex_eq_findIdx holdlt
  have hnew : sameColumnNewIndex (s.tasks.filter fun t => t.column == B) over
        = ((claimNewPos (s.tasks.filter fun t => t.column == B) over : Nat) : Int) ∧
      claimNewPos (s.tasks.filter fun t => t.column == B) over
        < (s.tasks.filter fun t => t.column == B).length := by
    cases over with
    | column c0 =>
      constructor
      · show ((s.tasks.filter fun t => t.column == B).length : Int) - 1
          = (((s.tasks.filter fun t => t.column == B).length - 1 : Nat) : Int)
        omega
      · show (s.tasks.filter fun t => t.column == B).length - 1
          < (s.tasks.filter fun t => t.column == B).length
        omega
    | task oid =>
      obtain ⟨oT, hoT, hoTc⟩ : ∃ oT, s.tasks.find? (fun t => t.id == oid) = some oT
          ∧ oT.column = B := by
        simp only [resolveTargetColumn] at h3
        obtain ⟨oT, hoT, hoTc⟩ := Option.map_eq_some'.mp h3
        exact ⟨oT, hoT, hoTc⟩
      have hoTmem : oT ∈ s.tasks.filter (fun t => t.column == B) :=
        List.mem_filter.mpr ⟨List.mem_of_find?_eq_some hoT, by simp [hoTc]⟩
      have hpo := List.find?_some hoT
      have hlt : (s.tasks.filter fun t => t.column == B).findIdx (fun t => t.id == oid)
          < (s.tasks.filter fun t => t.column == B).length :=
        List.findIdx_lt_length_of_exists ⟨oT, hoTmem, hpo⟩
      exact ⟨jsFindIndex_eq_findIdx hlt, hlt⟩
  have hneInt : jsFindIndex (fun t => t.id == ev.activeId)
      (s.tasks.filter fun t => t.column == B)
        ≠ sameColumnNewIndex (s.tasks.filter fun t => t.column == B) over := by
    rw [holdInt, hnew.1]
    exact_mod_cast hne
  have hplan := planDragEnd_same_some h1 h2 h3 h4 hneInt
  have htasks := @runDragEnd_tasks_of_plan s pid ev ok _ hplan
  have hfilter := optimisticTasks_filter_target s.tasks ev.activeId
    ⟨aTask, B, arrayMove (s.tasks.filter fun t => t.column == B)
      (jsFindIndex (fun t => t.id == ev.activeId) (s.tasks.filter fun t => t.column == B))
      (sameColumnNewIndex (s.tasks.filter fun t => t.column == B) over)⟩
  have harr : arrayMove (s.tasks.filter fun t => t.column == B)
      (jsFindIndex (fun t => t.id == ev.activeId) (s.tasks.filter fun t => t.column == B))
      (sameColumnNewIndex (s.tasks.filter fun t => t.column == B) over)
        = removeThenInsert (s.tasks.filter fun t => t.column == B)
            (claimOldPos (s.tasks.filter fun t => t.column == B) ev.activeId)
            (claimNewPos (s.tasks.filter fun t => t.column == B) over) := by
    rw [holdInt, hnew.1,
      arrayMove_eq_removeThenInsert _ _ _ (by omega) (by exact_mod_cast holdlt)
        (by omega) (by exact_mod_cast hnew.2)]
    simp
  have hmain : (runDragEnd s pid ev ok).tasks.filter (fun t => t.column == B)
      = assignOrders B 0 (removeThenInsert (s.tasks.filter fun t => t.column == B)
          (claimOldPos (s.tasks.filter fun t => t.column == B) ev.activeId)
          (claimNewPos (s.tasks.filter fun t => t.column == B) over)) := by
    rw [htasks, hfilter, harr]
  refine ⟨hmain, ?_⟩
  have holdlt2 : claimOldPos (s.tasks.filter fun t => t.column == B) ev.activeId
      < (s.tasks.filter fun t => t.column == B).length := holdlt
  rw [hmain, assignOrders_map_order,
    removeThenInsert_length _ _ _ holdlt2]
  refine List.map_congr_left fun k _ => ?_
  simp only [GAP]
  push_cast
  ring

/-- Witness for C2: the spec §8 scenario — with "Not Started" holding
[A(100), B(200), C(300)], dragging B onto A yields [B, A, C] with orders
[100, 200, 300]. -/
theorem c2_same_column_move_witness :
    (runDragEnd sampleState (some "proj") sampleEvBA true).tasks.filter
        (fun t => t.column == Column.notStarted)
          = assignOrders Column.notStarted 0
              (removeThenInsert (sampleState.tasks.filter
                  (fun t => t.column == Column.notStarted))
                (claimOldPos (sampleState.tasks.filter
                  (fun t => t.column == Column.notStarted)) "b2")
                (claimNewPos (sampleState.tasks.filter
                  (fun t => t.column == Column.notStarted)) (OverTarget.task "a1"))) ∧
      ((runDragEnd sampleState (some "proj") sampleEvBA true).tasks.filter
          (fun t => t.column == Column.notStarted)).map (·.order)
        = (List.range (sampleState.tasks.filter
            (fun t => t.column == Column.notStarted)).length).map
            (fun (k : Nat) => ((k : Int) + 1) * GAP) ∧
      (runDragEnd sampleState (some "proj") sampleEvBA true).tasks.filter
          (fun t => t.column == Column.notStarted)
        = [{ sampleB with order := 100 }, { sampleA with order := 200 },
            { sampleC with order := 300 }] :=
  ⟨(c2_same_column_move sampleState (some "proj") sampleEvBA true
      (OverTarget.task "a1") sampleB Column.notStarted rfl (by decide) (by decide)
      (by decide) (by decide)).1,
    (c2_same_column_move sampleState (some "proj") sampleEvBA true
      (OverTarget.task "a1") sampleB Column.notStarted rfl (by decide) (by decide)
      (by decide) (by decide)).2,
    by decide⟩

/-- C3: if order keys within each column are unique and strictly increasing
along the displayed sequence (the §3 invariant), then after any drag-end
operation no two tasks of a column share an order key, each column's sequence
is again strictly increasing in order (sorting by order reproduces the visual
sequence), and the target column's resulting sequence is exactly the planned
renumbered sequence. -/
theorem c3_order_uniqueness (s : LocalState) (pid : Option String) (ev : DragEndEvent)
    (ok : Bool) (hsorted : OrdersStrictSorted s.tasks) :
    OrdersStrictSorted (runDragEnd s pid ev ok).tasks ∧
    (∀ c, (ordersInColumn c (runDragEnd s pid ev ok).tasks).Nodup) ∧
    (∀ p, planDragEnd s.tasks ev = some p →
      (runDragEnd s pid ev ok).tasks.filter (fun t => t.column == p.targetColumn)
        = assignOrders p.targetColumn 0 p.newTasksInColumn) := by
  have hmain : OrdersStrictSorted (runDragEnd s pid ev ok).tasks := by
    rcases hp : planDragEnd s.tasks ev with _ | p
    · rw [runDragEnd_of_plan_none hp]
      exact hsorted
    · intro c
      unfold ordersInColumn
      rw [runDragEnd_tasks_of_plan hp]
      by_cases hc : c = p.targetColumn
      · subst hc
        rw [optimisticTasks_filter_target, List.pairwise_map]
        exact assignOrders_pairwise _ _ _
      · have hsub := (optimisticTasks_filter_other_sublist s.tasks ev.activeId p hc).map
          (·.order)
        exact (hsorted c).sublist hsub
  refine ⟨hmain, fun c => (hmain c).imp ne_of_lt, fun p hp => ?_⟩
  rw [runDragEnd_tasks_of_plan hp, optimisticTasks_filter_target]

/-- Witness for C3: the B-onto-A scenario preserves the invariant. -/
theorem c3_order_uniqueness_witness :
    OrdersStrictSorted (runDragEnd sampleState (some "proj") sampleEvBA true).tasks ∧
      (ordersInColumn .notStarted (runDragEnd sampleState (some "proj") sampleEvBA
        true).tasks).Nodup ∧
      (runDragEnd sampleState (some "proj") sampleEvBA true).tasks.filter
          (fun t => t.column == samplePlanBA.targetColumn)
        = assignOrders samplePlanBA.targetColumn 0 samplePlanBA.newTasksInColumn :=
  ⟨(c3_order_uniqueness sampleState (some "proj") sampleEvBA true
      (fun c => by cases c <;> decide)).1,
    (c3_order_uniqueness sampleState (some "proj") sampleEvBA true
      (fun c => by cases c <;> decide)).2.1 .notStarted,
    (c3_order_uniqueness sampleState (some "proj") sampleEvBA true
      (fun c => by cases c <;> decide)).2.2 samplePlanBA (by decide)⟩

/-- C8: the function `addTask` assigns the new task the active column and the order key
`max(existing column orders, default 0) + GAP` with `GAP = 100`; for an empty
column the appended order is exactly `GAP`. -/
theorem c8_append_order (title : String) (pid : Option String) (tasks : List Task)
    (c : Column) (out : String × Column × Int)
    (h : addTask title pid tasks c = some out) :
    out.2.1 = c ∧
    (∃ m : Int, out.2.2 = m + GAP ∧ 0 ≤ m ∧
      (∀ t ∈ tasks.filter (fun t => t.column == c), t.order ≤ m) ∧
      (m = 0 ∨ ∃ t ∈ tasks.filter (fun t => t.column == c), t.order = m)) ∧
    (tasks.filter (fun t => t.column == c) = [] → out.2.2 = GAP) := by
  unfold addTask at h
  by_cases ht : jsTrim title = ""
  · rw [if_pos ht] at h
    exact absurd h (by simp)
  · rw [if_neg ht] at h
    cases pid with
    | none => exact absurd h (by simp)
    | some pidv =>
      simp only [Option.some.injEq] at h
      subst h
      refine ⟨rfl, ⟨((tasks.filter (fun t => t.column == c)).map (fun t => t.order)).foldr
        max 0, rfl, foldr_max_nonneg _, fun t htm => ?_, ?_⟩, fun hempty => ?_⟩
      · exact le_foldr_max _ _ (List.mem_map_of_mem _ htm)
      · rcases foldr_max_mem ((tasks.filter (fun t => t.column == c)).map
          (fun t => t.order)) with h0 | hmem
        · exact Or.inl h0
        · obtain ⟨t, htm, hto⟩ := List.mem_map.mp hmem
          exact Or.inr ⟨t, htm, hto⟩
      · show ((tasks.filter (fun t => t.column == c)).map (fun t => t.order)).foldr
          max 0 + 100 = GAP
        rw [hempty]
        rfl

/-- Witness for C8: adding a task to an empty "In Progress" column assigns
order 100. -/
theorem c8_append_order_witness :
    (addTask "New task" (some "proj") [] Column.inProgress
        = some ("New task", Column.inProgress, 100)) ∧
      ("New task", Column.inProgress, (100 : Int)).2.1 = Column.inProgress ∧
      (∃ m : Int, ("New task", Column.inProgress, (100 : Int)).2.2 = m + GAP ∧ 0 ≤ m ∧
        (∀ t ∈ ([] : List Task).filter (fun t => t.column == Column.inProgress),
          t.order ≤ m) ∧
        (m = 0 ∨ ∃ t ∈ ([] : List Task).filter (fun t => t.column == Column.inProgress),
          t.order = m)) ∧
      (([] : List Task).filter (fun t => t.column == Column.inProgress) = [] →
        ("New task", Column.inProgress, (100 : Int)).2.2 = GAP) := by
  refine ⟨by decide, ?_⟩
  exact c8_append_order "New task" (some "proj") [] Column.inProgress
    ("New task", Column.inProgress, 100) (by decide)

/-- Witness for C10: the B-onto-A scenario with no active project. -/
theorem c10_no_active_project_witness :
    (runDragEnd sampleState none sampleEvBA true).tasks
        = optimisticTasks sampleState.tasks sampleEvBA.activeId samplePlanBA ∧
      writesOf (handleDragEnd sampleState.tasks none sampleEvBA true) = [] ∧
      notificationsOf (handleDragEnd sampleState.tasks none sampleEvBA true) = [] ∧
      (runDragEnd sampleState none sampleEvBA true).notifications
        = sampleState.notifications ∧
      (runDragEnd sampleState none sampleEvBA true).tasks
        = (runDragEnd sampleState (some "proj") sampleEvBA true).tasks :=
  ⟨(c10_no_active_project sampleState sampleEvBA true samplePlanBA (by decide)).1,
    (c10_no_active_project sampleState sampleEvBA true samplePlanBA (by decide)).2.1,
    (c10_no_active_project sampleState sampleEvBA true samplePlanBA (by decide)).2.2.1,
    (c10_no_active_project sampleState sampleEvBA true samplePlanBA (by decide)).2.2.2.1,
    (c10_no_active_project sampleState sampleEvBA true samplePlanBA (by decide)).2.2.2.2 "proj"⟩

end Lotion
